import Mathlib

/-!
Verification development for the Rating & Grading Engine of the
`financial_markets` repository.

The Python source is shallowly embedded as follows:

* integer student scores become `ℤ` (as raw inputs, `ℚ` inside the grade
  computation, which receives `List[Tuple[int, float]]`);
* floating-point grades and CDF values become `ℝ` (the mathematical
  idealisation of the float computation);
* Python dicts keyed by user id become association lists built with a
  `dictInsert` that replaces the existing binding for a key or appends,
  exactly like dict assignment;
* `scipy.stats.norm.cdf` becomes the standard normal CDF defined from the
  Gaussian measure;
* the SQLAlchemy session/state becomes an explicit `DB` value threaded
  through the operations; queries become list filters in database order;
* Python's stable `sort(..., reverse=True)` on tuple keys becomes
  `List.mergeSort` with the reversed lexicographic comparator (mergeSort is
  a stable sort, matching Timsort's stability guarantee);
* `round(x, 2)` and the `:.2f` format become round-half-to-even at two
  decimal places over `ℝ`.
-/

namespace FinMarkets

/-! ### GradeComputer: `src/models/rating.py` -/

/-- Exclusion threshold: students with `score <= -15` are excluded
(`EXCLUSION_THRESHOLD` in `src/models/rating.py`). -/
def EXCLUSION_THRESHOLD : ℚ := -15

/-- One value of the dict returned by `calculate_grades`.  The Python dict
for an excluded student has no `mu`/`sigma` keys; this is modelled by the
`Option` fields being `none`. -/
structure GradeInfo where
  grade : ℝ
  excluded : Bool
  cdf_value : ℝ
  mu : Option ℝ
  sigma : Option ℝ

/-- Standard normal cumulative distribution function, the meaning of
`scipy.stats.norm.cdf` for the standard normal: the Gaussian probability
of `(-∞, x]`. -/
noncomputable def normCdf (x : ℝ) : ℝ :=
  (ProbabilityTheory.gaussianReal 0 1 (Set.Iic x)).toReal

/-- `scipy.stats.norm.cdf(x, loc, scale)`: the CDF of the normal
distribution with mean `loc` and standard deviation `scale`, i.e.
`Φ((x - loc) / scale)`. -/
noncomputable def norm_cdf (x loc scale : ℝ) : ℝ :=
  normCdf ((x - loc) / scale)

/-- Python dict assignment `d[k] = v` on an association list: replace the
binding at the (unique) existing slot for `k`, or append a new binding. -/
def dictInsert : List (ℤ × GradeInfo) → ℤ → GradeInfo → List (ℤ × GradeInfo)
  | [], k, v => [(k, v)]
  | p :: d, k, v => if p.1 = k then (k, v) :: d else p :: dictInsert d k v

/-- Python dict lookup `d[k]` / `d.get(k)`. -/
def dictGet (k : ℤ) : List (ℤ × GradeInfo) → Option GradeInfo
  | [] => none
  | p :: d => if p.1 = k then some p.2 else dictGet k d

/-- `included_students`: the pairs with `score > EXCLUSION_THRESHOLD`. -/
def included_students (data : List (ℤ × ℚ)) : List (ℤ × ℚ) :=
  data.filter (fun p => decide (EXCLUSION_THRESHOLD < p.2))

/-- `excluded_students`: the pairs with `score <= EXCLUSION_THRESHOLD`. -/
def excluded_students (data : List (ℤ × ℚ)) : List (ℤ × ℚ) :=
  data.filter (fun p => decide (p.2 ≤ EXCLUSION_THRESHOLD))

/-- `included_scores`: the scores of the included students. -/
def included_scores (data : List (ℤ × ℚ)) : List ℚ :=
  (included_students data).map (fun p => p.2)

/-- `mu = np.mean(included_scores)`: arithmetic mean of the included
scores. -/
def muOf (data : List (ℤ × ℚ)) : ℚ :=
  (included_scores data).sum / (included_scores data).length

/-- The variance with divisor `N` (what `np.std(..., ddof=0)` takes the
square root of). -/
def sigmaSqOf (data : List (ℤ × ℚ)) : ℚ :=
  ((included_scores data).map (fun x => (x - muOf data) ^ 2)).sum /
    (included_scores data).length

/-- `sigma = np.std(included_scores, ddof=0)`: population standard
deviation (divisor `N`) of the included scores. -/
noncomputable def sigmaOf (data : List (ℤ × ℚ)) : ℝ :=
  Real.sqrt (sigmaSqOf data)

/-- The dict value `{'grade': 0.0, 'excluded': True, 'cdf_value': 0.0}`
given to every excluded student (no `mu`/`sigma` keys). -/
def excludedInfo : GradeInfo :=
  { grade := 0, excluded := true, cdf_value := 0, mu := none, sigma := none }

/-- The dict value given to every included student when `sigma == 0`:
`{'grade': 5.0, 'excluded': False, 'cdf_value': 0.5, 'mu': mu, 'sigma': 0.0}`. -/
noncomputable def degenInfo (mu : ℚ) : GradeInfo :=
  { grade := 5, excluded := false, cdf_value := 1 / 2,
    mu := some (mu : ℝ), sigma := some 0 }

/-- The dict value given to an included student in the normal case:
`cdf = stats.norm.cdf(score, loc=mu, scale=sigma)`, `grade = cdf * 10`,
with `mu` and `sigma` attached. -/
noncomputable def normalInfo (mu sigma : ℝ) (score : ℚ) : GradeInfo :=
  { grade := norm_cdf (score : ℝ) mu sigma * 10, excluded := false,
    cdf_value := norm_cdf (score : ℝ) mu sigma,
    mu := some mu, sigma := some sigma }

/-- The first loop of `calculate_grades`: every excluded student is entered
into the result dict with `excludedInfo`. -/
def excludedResult (data : List (ℤ × ℚ)) : List (ℤ × GradeInfo) :=
  (excluded_students data).foldl (fun d p => dictInsert d p.1 excludedInfo) []

open Classical in
/-- `calculate_grades(students_data)` from `src/models/rating.py`:
partition on the exclusion threshold, give excluded students grade `0.0`,
and grade included students by the normal CDF with the population
parameters of the included scores, with the `sigma == 0` degenerate case
giving everyone `5.0`. -/
noncomputable def calculate_grades (data : List (ℤ × ℚ)) : List (ℤ × GradeInfo) :=
  if data.isEmpty then []
  else if (included_students data).isEmpty then excludedResult data
  else if sigmaOf data = 0 then
    (included_students data).foldl
      (fun d p => dictInsert d p.1 (degenInfo (muOf data))) (excludedResult data)
  else
    (included_students data).foldl
      (fun d p => dictInsert d p.1 (normalInfo (muOf data) (sigmaOf data) p.2))
      (excludedResult data)

/-! #### Association-list lemmas -/

theorem dictGet_dictInsert_self (d : List (ℤ × GradeInfo)) (k : ℤ) (v : GradeInfo) :
    dictGet k (dictInsert d k v) = some v := by
  induction d with
  | nil => simp [dictInsert, dictGet]
  | cons p d ih =>
    by_cases h : p.1 = k
    · simp [dictInsert, dictGet, h]
    · simp [dictInsert, dictGet, h, ih]

theorem dictGet_dictInsert_ne (d : List (ℤ × GradeInfo)) {k k' : ℤ} (v : GradeInfo)
    (h : k' ≠ k) : dictGet k' (dictInsert d k v) = dictGet k' d := by
  have hk : ¬k = k' := fun hh => h hh.symm
  induction d with
  | nil => simp [dictInsert, dictGet, hk]
  | cons p d ih =>
    by_cases hp : p.1 = k
    · simp [dictInsert, dictGet, hp, hk]
    · simp [dictInsert, dictGet, hp, ih]

theorem dictGet_foldl_not_mem (g : ℤ × ℚ → GradeInfo) (l : List (ℤ × ℚ))
    (d0 : List (ℤ × GradeInfo)) {k : ℤ} :
    k ∉ l.map Prod.fst →
      dictGet k (l.foldl (fun d p => dictInsert d p.1 (g p)) d0) = dictGet k d0 := by
  induction l generalizing d0 with
  | nil => intro _; rfl
  | cons p l ih =>
    intro h
    simp only [List.map_cons, List.mem_cons, not_or] at h
    simp only [List.foldl_cons]
    rw [ih _ h.2, dictGet_dictInsert_ne _ _ h.1]

theorem dictGet_foldl_mem (g : ℤ × ℚ → GradeInfo) (l : List (ℤ × ℚ))
    (d0 : List (ℤ × GradeInfo)) {k : ℤ} {s : ℚ} :
    (l.map Prod.fst).Nodup → (k, s) ∈ l →
      dictGet k (l.foldl (fun d p => dictInsert d p.1 (g p)) d0) = some (g (k, s)) := by
  induction l generalizing d0 with
  | nil => intro _ hm; cases hm
  | cons p l ih =>
    intro hN hm
    simp only [List.map_cons, List.nodup_cons] at hN
    simp only [List.foldl_cons]
    rcases List.mem_cons.mp hm with hh | ht
    · rw [← hh] at hN ⊢
      rw [dictGet_foldl_not_mem _ _ _ hN.1, dictGet_dictInsert_self]
    · exact ih _ hN.2 ht

/-- With duplicate-free keys, a key determines its value in the input
list. -/
theorem nodup_keys_eq {data : List (ℤ × ℚ)} {k : ℤ} {a b : ℚ} :
    (data.map Prod.fst).Nodup → (k, a) ∈ data → (k, b) ∈ data → a = b := by
  induction data with
  | nil => intro _ ha _; cases ha
  | cons p l ih =>
    intro hN ha hb
    simp only [List.map_cons, List.nodup_cons] at hN
    rcases List.mem_cons.mp ha with h1 | h1 <;> rcases List.mem_cons.mp hb with h2 | h2
    · exact (Prod.ext_iff.mp (h1.trans h2.symm)).2
    · have hp : p.1 = k := by rw [← h1]
      exact absurd (hp ▸ List.mem_map.mpr ⟨(k, b), h2, rfl⟩) hN.1
    · have hp : p.1 = k := by rw [← h2]
      exact absurd (hp ▸ List.mem_map.mpr ⟨(k, a), h1, rfl⟩) hN.1
    · exact ih hN.2 h1 h2

/-! #### Population-parameter lemmas -/

theorem mem_included_students {data : List (ℤ × ℚ)} {uid : ℤ} {s : ℚ}
    (hm : (uid, s) ∈ data) (hs : EXCLUSION_THRESHOLD < s) :
    (uid, s) ∈ included_students data :=
  List.mem_filter.mpr ⟨hm, by simpa using hs⟩

theorem mem_excluded_students {data : List (ℤ × ℚ)} {uid : ℤ} {s : ℚ}
    (hm : (uid, s) ∈ data) (hs : s ≤ EXCLUSION_THRESHOLD) :
    (uid, s) ∈ excluded_students data :=
  List.mem_filter.mpr ⟨hm, by simpa using hs⟩

theorem included_keys_nodup {data : List (ℤ × ℚ)}
    (hN : (data.map Prod.fst).Nodup) :
    ((included_students data).map Prod.fst).Nodup :=
  List.Nodup.sublist (List.Sublist.map _ (List.filter_sublist _)) hN

theorem excluded_keys_nodup {data : List (ℤ × ℚ)}
    (hN : (data.map Prod.fst).Nodup) :
    ((excluded_students data).map Prod.fst).Nodup :=
  List.Nodup.sublist (List.Sublist.map _ (List.filter_sublist _)) hN

theorem excluded_key_not_included {data : List (ℤ × ℚ)} {uid : ℤ} {s : ℚ}
    (hN : (data.map Prod.fst).Nodup) (hm : (uid, s) ∈ data)
    (hs : s ≤ EXCLUSION_THRESHOLD) :
    uid ∉ (included_students data).map Prod.fst := by
  intro h
  obtain ⟨⟨u', s'⟩, hmem, heq⟩ := List.mem_map.mp h
  obtain ⟨hd, hgt⟩ := List.mem_filter.mp hmem
  simp only [decide_eq_true_eq] at hgt
  cases heq
  have : s = s' := nodup_keys_eq hN hm hd
  rw [this] at hs
  exact absurd hgt (not_lt.mpr hs)

theorem list_sum_sq_nonneg (l : List ℚ) (c : ℚ) :
    0 ≤ (l.map (fun x => (x - c) ^ 2)).sum := by
  apply List.sum_nonneg
  intro x hx
  obtain ⟨y, _, rfl⟩ := List.mem_map.mp hx
  positivity

theorem list_sum_sq_eq_zero {l : List ℚ} {c : ℚ}
    (h : (l.map (fun x => (x - c) ^ 2)).sum = 0) : ∀ x ∈ l, x = c := by
  induction l with
  | nil => intro x hx; cases hx
  | cons a l ih =>
    simp only [List.map_cons, List.sum_cons] at h
    have h1 : (0 : ℚ) ≤ (a - c) ^ 2 := sq_nonneg _
    have h2 := list_sum_sq_nonneg l c
    have ha : (a - c) ^ 2 = 0 := by linarith
    have hl : (l.map (fun x => (x - c) ^ 2)).sum = 0 := by linarith
    intro x hx
    rcases List.mem_cons.mp hx with hx | hx
    · subst hx
      have : x - c = 0 := (pow_eq_zero_iff two_ne_zero).mp ha
      linarith [sub_eq_zero.mp this]
    · exact ih hl x hx

theorem list_sum_const {l : List ℚ} {s : ℚ} (hall : ∀ x ∈ l, x = s) :
    l.sum = l.length * s := by
  induction l with
  | nil => simp
  | cons a l ih =>
    simp only [List.sum_cons, List.length_cons]
    rw [hall a (List.mem_cons_self a l),
        ih (fun x hx => hall x (List.mem_cons_of_mem a hx))]
    push_cast
    ring

theorem muOf_const {data : List (ℤ × ℚ)} {s : ℚ}
    (hne : included_scores data ≠ [])
    (hall : ∀ x ∈ included_scores data, x = s) : muOf data = s := by
  have hn : ((included_scores data).length : ℚ) ≠ 0 :=
    (Nat.cast_pos.mpr (List.length_pos.mpr hne)).ne'
  rw [muOf, list_sum_const hall, mul_comm, mul_div_assoc, div_self hn, mul_one]

theorem sigmaSqOf_eq_zero_of_const {data : List (ℤ × ℚ)}
    (hall : ∀ x ∈ included_scores data, x = muOf data) : sigmaSqOf data = 0 := by
  have : ((included_scores data).map (fun x => (x - muOf data) ^ 2)).sum = 0 := by
    apply List.sum_eq_zero
    intro x hx
    obtain ⟨y, hy, rfl⟩ := List.mem_map.mp hx
    rw [hall y hy]
    ring
  rw [sigmaSqOf, this, zero_div]

theorem sigmaSqOf_pos {data : List (ℤ × ℚ)} {a b : ℚ}
    (ha : a ∈ included_scores data) (hb : b ∈ included_scores data)
    (hab : a ≠ b) : 0 < sigmaSqOf data := by
  have hlen : (0 : ℚ) < (included_scores data).length := by
    have := List.length_pos.mpr (List.ne_nil_of_mem ha)
    exact_mod_cast this
  have hge := list_sum_sq_nonneg (included_scores data) (muOf data)
  rcases lt_or_eq_of_le hge with hgt | heq
  · exact div_pos hgt hlen
  · exfalso
    have hz := list_sum_sq_eq_zero heq.symm
    exact hab ((hz a ha).trans (hz b hb).symm)

theorem sigmaOf_ne_zero {data : List (ℤ × ℚ)} {a b : ℚ}
    (ha : a ∈ included_scores data) (hb : b ∈ included_scores data)
    (hab : a ≠ b) : sigmaOf data ≠ 0 := by
  have h : (0 : ℝ) < (sigmaSqOf data : ℝ) := by exact_mod_cast sigmaSqOf_pos ha hb hab
  exact ne_of_gt (Real.sqrt_pos.mpr h)

theorem sigmaOf_eq_zero_of_const {data : List (ℤ × ℚ)}
    (hall : ∀ x ∈ included_scores data, x = muOf data) : sigmaOf data = 0 := by
  rw [sigmaOf, sigmaSqOf_eq_zero_of_const hall]
  simp

/-- The result-dict lookup for an excluded participant hits the entry
written in the first loop, untouched by the included loops. -/
theorem dictGet_calculate_grades_excluded {data : List (ℤ × ℚ)} {uid : ℤ} {s : ℚ}
    (hN : (data.map Prod.fst).Nodup) (hm : (uid, s) ∈ data)
    (hs : s ≤ EXCLUSION_THRESHOLD) :
    dictGet uid (calculate_grades data) = some excludedInfo := by
  have hdata : ¬data.isEmpty = true := by
    simp [List.isEmpty_iff, List.ne_nil_of_mem hm]
  have hbase : dictGet uid (excludedResult data) = some excludedInfo :=
    dictGet_foldl_mem _ _ _ (excluded_keys_nodup hN) (mem_excluded_students hm hs)
  have hnotin := excluded_key_not_included hN hm hs
  rw [calculate_grades, if_neg hdata]
  by_cases hI : (included_students data).isEmpty
  · rw [if_pos hI]; exact hbase
  · rw [if_neg hI]
    by_cases hσ : sigmaOf data = 0
    · rw [if_pos hσ, dictGet_foldl_not_mem _ _ _ hnotin]; exact hbase
    · rw [if_neg hσ, dictGet_foldl_not_mem _ _ _ hnotin]; exact hbase

/-- In every branch, an included participant has a result entry and it is
not marked excluded. -/
theorem dictGet_calculate_grades_included {data : List (ℤ × ℚ)} {uid : ℤ} {s : ℚ}
    (hN : (data.map Prod.fst).Nodup) (hm : (uid, s) ∈ data)
    (hs : EXCLUSION_THRESHOLD < s) :
    ∃ info, dictGet uid (calculate_grades data) = some info ∧
      info.excluded = false := by
  have hdata : ¬data.isEmpty = true := by
    simp [List.isEmpty_iff, List.ne_nil_of_mem hm]
  have hmi := mem_included_students hm hs
  have hI : ¬(included_students data).isEmpty = true := by
    simp [List.isEmpty_iff, List.ne_nil_of_mem hmi]
  have hNi := included_keys_nodup hN
  rw [calculate_grades, if_neg hdata, if_neg hI]
  by_cases hσ : sigmaOf data = 0
  · rw [if_pos hσ, dictGet_foldl_mem _ _ _ hNi hmi]
    exact ⟨_, rfl, rfl⟩
  · rw [if_neg hσ, dictGet_foldl_mem _ _ _ hNi hmi]
    exact ⟨_, rfl, rfl⟩

theorem included_students_append_excluded {data extra : List (ℤ × ℚ)}
    (hex : ∀ p ∈ extra, p.2 ≤ EXCLUSION_THRESHOLD) :
    included_students (data ++ extra) = included_students data := by
  rw [included_students, List.filter_append]
  have : extra.filter (fun p => decide (EXCLUSION_THRESHOLD < p.2)) = [] := by
    rw [List.filter_eq_nil_iff]
    intro p hp
    simpa using not_lt.mpr (hex p hp)
  rw [this, List.append_nil, included_students]

/-- C2: every participant at or below the exclusion threshold gets exactly
`{grade: 0.0, excluded: True, cdf_value: 0.0}` (and no `mu`/`sigma` keys);
participants above the threshold are never marked excluded; and excluded
participants never contribute to the population parameters µ/σ, which
depend only on the included portion of the input. -/
theorem calculate_grades_exclusion (data : List (ℤ × ℚ)) (uid : ℤ) (s : ℚ)
    (hN : (data.map Prod.fst).Nodup) (hm : (uid, s) ∈ data) :
    (s ≤ EXCLUSION_THRESHOLD →
      dictGet uid (calculate_grades data) =
        some { grade := 0, excluded := true, cdf_value := 0,
               mu := none, sigma := none }) ∧
    (EXCLUSION_THRESHOLD < s →
      ∃ info, dictGet uid (calculate_grades data) = some info ∧
        info.excluded = false) ∧
    (∀ extra : List (ℤ × ℚ), (∀ p ∈ extra, p.2 ≤ EXCLUSION_THRESHOLD) →
      muOf (data ++ extra) = muOf data ∧ sigmaOf (data ++ extra) = sigmaOf data) := by
  refine ⟨fun hs => dictGet_calculate_grades_excluded hN hm hs,
          fun hs => dictGet_calculate_grades_included hN hm hs,
          fun extra hex => ?_⟩
  have h := @included_students_append_excluded data extra hex
  constructor
  · rw [muOf, muOf, included_scores, included_scores, h]
  · rw [sigmaOf, sigmaOf, sigmaSqOf, sigmaSqOf, muOf, muOf,
        included_scores, included_scores, h]

/-- Witness for C2 at the concrete input `[(1, -20), (2, 10)]`. -/
theorem calculate_grades_exclusion_witness :
    (([((1 : ℤ), (-20 : ℚ)), (2, 10)]).map Prod.fst).Nodup ∧
      ((1 : ℤ), (-20 : ℚ)) ∈ [((1 : ℤ), (-20 : ℚ)), (2, 10)] ∧
      ((-20 : ℚ) ≤ EXCLUSION_THRESHOLD →
        dictGet 1 (calculate_grades [((1 : ℤ), (-20 : ℚ)), (2, 10)]) =
          some { grade := 0, excluded := true, cdf_value := 0,
                 mu := none, sigma := none }) :=
  ⟨by decide, by decide,
   (calculate_grades_exclusion [((1 : ℤ), (-20 : ℚ)), (2, 10)] 1 (-20)
     (by decide) (by decide)).1⟩

/-- C3: in the non-degenerate case (non-empty included subset whose scores
are not all equal), every included participant gets
`cdf = Φ((score − µ)/σ)` and `grade = cdf · 10`, where `µ` is the
arithmetic mean and `σ` the population standard deviation (divisor `N`)
of the included scores only, and `mu`/`sigma` are attached to the
result. -/
theorem calculate_grades_normal (data : List (ℤ × ℚ)) (uid : ℤ) (s : ℚ)
    (hN : (data.map Prod.fst).Nodup) (hm : (uid, s) ∈ data)
    (hs : EXCLUSION_THRESHOLD < s)
    (hvar : ∃ p ∈ data, ∃ q ∈ data,
      EXCLUSION_THRESHOLD < p.2 ∧ EXCLUSION_THRESHOLD < q.2 ∧ p.2 ≠ q.2) :
    dictGet uid (calculate_grades data) =
      some { grade := normCdf (((s : ℝ) - (muOf data : ℝ)) / sigmaOf data) * 10,
             excluded := false,
             cdf_value := normCdf (((s : ℝ) - (muOf data : ℝ)) / sigmaOf data),
             mu := some (muOf data : ℝ), sigma := some (sigmaOf data) } ∧
    muOf data = (included_scores data).sum / (included_scores data).length ∧
    sigmaOf data =
      Real.sqrt ((((included_scores data).map
        (fun x => (x - muOf data) ^ 2)).sum / (included_scores data).length : ℚ)) := by
  obtain ⟨p, hp, q, hq, hps, hqs, hpq⟩ := hvar
  have hpa : p.2 ∈ included_scores data :=
    List.mem_map.mpr ⟨p, List.mem_filter.mpr ⟨hp, by simpa using hps⟩, rfl⟩
  have hqa : q.2 ∈ included_scores data :=
    List.mem_map.mpr ⟨q, List.mem_filter.mpr ⟨hq, by simpa using hqs⟩, rfl⟩
  have hσ := sigmaOf_ne_zero hpa hqa hpq
  have hdata : ¬data.isEmpty = true := by
    simp [List.isEmpty_iff, List.ne_nil_of_mem hm]
  have hmi := mem_included_students hm hs
  have hI : ¬(included_students data).isEmpty = true := by
    simp [List.isEmpty_iff, List.ne_nil_of_mem hmi]
  refine ⟨?_, rfl, rfl⟩
  rw [calculate_grades, if_neg hdata, if_neg hI, if_neg hσ,
      dictGet_foldl_mem _ _ _ (included_keys_nodup hN) hmi]
  rfl

/-- Witness for C3 at the concrete input `[(1, 0), (2, 10)]`. -/
theorem calculate_grades_normal_witness :
    (([((1 : ℤ), (0 : ℚ)), (2, 10)]).map Prod.fst).Nodup ∧
      ((1 : ℤ), (0 : ℚ)) ∈ [((1 : ℤ), (0 : ℚ)), (2, 10)] ∧
      EXCLUSION_THRESHOLD < (0 : ℚ) ∧
      (∃ p ∈ [((1 : ℤ), (0 : ℚ)), (2, 10)], ∃ q ∈ [((1 : ℤ), (0 : ℚ)), (2, 10)],
        EXCLUSION_THRESHOLD < p.2 ∧ EXCLUSION_THRESHOLD < q.2 ∧ p.2 ≠ q.2) ∧
      muOf [((1 : ℤ), (0 : ℚ)), (2, 10)] =
        (included_scores [((1 : ℤ), (0 : ℚ)), (2, 10)]).sum /
          (included_scores [((1 : ℤ), (0 : ℚ)), (2, 10)]).length :=
  ⟨by decide, by decide, by decide, by decide,
   (calculate_grades_normal [((1 : ℤ), (0 : ℚ)), (2, 10)] 1 0
     (by decide) (by decide) (by decide) (by decide)).2.1⟩

/-- C4: in the degenerate case (non-empty included subset with all scores
identical, so `σ = 0`), every included participant gets exactly
`{grade: 5.0, excluded: false, cdf_value: 0.5, mu, sigma: 0.0}`. -/
theorem calculate_grades_degenerate (data : List (ℤ × ℚ)) (uid : ℤ) (s : ℚ)
    (hN : (data.map Prod.fst).Nodup) (hm : (uid, s) ∈ data)
    (hs : EXCLUSION_THRESHOLD < s)
    (hsame : ∀ p ∈ data, EXCLUSION_THRESHOLD < p.2 → p.2 = s) :
    dictGet uid (calculate_grades data) =
      some { grade := 5, excluded := false, cdf_value := 1 / 2,
             mu := some (muOf data : ℝ), sigma := some 0 } ∧
    muOf data = s := by
  have hmi := mem_included_students hm hs
  have hall : ∀ x ∈ included_scores data, x = s := by
    intro x hx
    obtain ⟨⟨u', s'⟩, hmem, rfl⟩ := List.mem_map.mp hx
    obtain ⟨hd, hgt⟩ := List.mem_filter.mp hmem
    simp only [decide_eq_true_eq] at hgt
    exact hsame _ hd hgt
  have hne : included_scores data ≠ [] :=
    List.ne_nil_of_mem (List.mem_map.mpr ⟨(uid, s), hmi, rfl⟩)
  have hmu : muOf data = s := muOf_const hne hall
  have hσ : sigmaOf data = 0 :=
    sigmaOf_eq_zero_of_const (fun x hx => (hall x hx).trans hmu.symm)
  have hdata : ¬data.isEmpty = true := by
    simp [List.isEmpty_iff, List.ne_nil_of_mem hm]
  have hI : ¬(included_students data).isEmpty = true := by
    simp [List.isEmpty_iff, List.ne_nil_of_mem hmi]
  refine ⟨?_, hmu⟩
  rw [calculate_grades, if_neg hdata, if_neg hI, if_pos hσ,
      dictGet_foldl_mem _ _ _ (included_keys_nodup hN) hmi]
  rfl

/-- Witness for C4 at the concrete input `[(1, 100), (2, 100)]`. -/
theorem calculate_grades_degenerate_witness :
    (([((1 : ℤ), (100 : ℚ)), (2, 100)]).map Prod.fst).Nodup ∧
      ((1 : ℤ), (100 : ℚ)) ∈ [((1 : ℤ), (100 : ℚ)), (2, 100)] ∧
      EXCLUSION_THRESHOLD < (100 : ℚ) ∧
      (∀ p ∈ [((1 : ℤ), (100 : ℚ)), (2, 100)],
        EXCLUSION_THRESHOLD < p.2 → p.2 = 100) ∧
      muOf [((1 : ℤ), (100 : ℚ)), (2, 100)] = 100 :=
  ⟨by decide, by decide, by decide, by decide,
   (calculate_grades_degenerate [((1 : ℤ), (100 : ℚ)), (2, 100)] 1 100
     (by decide) (by decide) (by decide) (by decide)).2⟩

/-! ### RatingStore / RatingAggregator: `src/models/database_manager.py`

The SQLAlchemy state is modelled by a `DB` value: the `users` and `groups`
tables as lists in database order.  Each mutating method returns the
updated `DB` alongside its result. -/

/-- `UserType` enum from `src/models/users.py`. -/
inductive UserType where
  | student
  | seminarian
  | admin
deriving DecidableEq

/-- A row of the `users` table (the fields the rating engine touches).
`seminar_grade` is the nullable float column holding the cached grade. -/
structure User where
  id : ℤ
  username : String
  score : ℤ
  seminar_grade : Option ℝ
  user_type : UserType
  group_id : Option ℤ

/-- A row of the `groups` table. -/
structure Group where
  id : ℤ
  name : String

/-- The database state. -/
structure DB where
  users : List User
  groups : List Group

/-- `session.query(User).filter(User.user_type == UserType.STUDENT)`. -/
def studentsOf (db : DB) : List User :=
  db.users.filter (fun u => decide (u.user_type = UserType.student))

/-- Python truthiness of the `group_id` argument (`if group_id:`): falsy
for `None` and for `0`. -/
def gidTruthy : Option ℤ → Bool
  | none => false
  | some g => decide (g ≠ 0)

/-- The scope restriction `query.filter(User.group_id == group_id)`,
applied only when `group_id` is truthy. -/
def inScope (scope : Option ℤ) (u : User) : Bool :=
  if gidTruthy scope then decide (u.group_id = scope) else true

/-- The students the scope of a read/clear call ranges over. -/
def scopedStudents (db : DB) (scope : Option ℤ) : List User :=
  (studentsOf db).filter (inScope scope)

/-- `session.query(Group).get(group_id)`. -/
def findGroup (db : DB) (gid : ℤ) : Option Group :=
  db.groups.find? (fun g => decide (g.id = gid))

/-- `group.students` filtered to `user_type == STUDENT`
(the relationship resolves users whose `group_id` equals the group's id,
in database order). -/
def group_students (db : DB) (gid : ℤ) : List User :=
  db.users.filter
    (fun u => decide (u.group_id = some gid) && decide (u.user_type = UserType.student))

/-- `student.group.name if student.group else 'Без группы'`. -/
def userGroupName (db : DB) (u : User) : String :=
  match u.group_id with
  | some g =>
    match findGroup db g with
    | some gr => gr.name
    | none => "Без группы"
  | none => "Без группы"

/-- Python's `round` at integer precision: round half to even.  This is the
mathematical idealisation of rounding an IEEE double. -/
noncomputable def roundHalfEven (x : ℝ) : ℤ :=
  if Int.fract x = 1 / 2 then (if Even ⌊x⌋ then ⌊x⌋ else ⌊x⌋ + 1) else round x

/-- Python `round(x, 2)`: round to two decimal places, half to even. -/
noncomputable def round2 (x : ℝ) : ℝ :=
  (roundHalfEven (100 * x) : ℝ) / 100

/-- One rating entry dict.  `rank` is `0` until the enumerate loop assigns
it (the Python dict has no `rank` key until then); `cdf_value` is `none`
on the paths that do not put a `cdf_value` key in the dict. -/
structure RatingEntry where
  user_id : ℤ
  username : String
  score : ℤ
  rank : ℕ
  grade : ℝ
  excluded : Bool
  cdf_value : Option ℝ
  group_id : Option ℤ
  group_name : String

/-- The sort key `(x['grade'], x['score'])` of a rating entry. -/
def entryKey (e : RatingEntry) : ℝ × ℤ := (e.grade, e.score)

/-- The sort key `(s.seminar_grade or 0, s.score)` of a user row
(`None or 0` and `0.0 or 0` both evaluate to `0`). -/
def userKey (u : User) : ℝ × ℤ := (u.seminar_grade.getD 0, u.score)

/-- Lexicographic order on `(grade, score)` keys, as Python compares
tuples. -/
def keyLe (p q : ℝ × ℤ) : Prop := p.1 < q.1 ∨ (p.1 = q.1 ∧ p.2 ≤ q.2)

open Classical in
/-- The comparator realising Python's stable
`sort(key=..., reverse=True)`: `a` may precede `b` iff `b`'s key is
lexicographically at most `a`'s. -/
noncomputable def descBy {α : Type} (key : α → ℝ × ℤ) (a b : α) : Bool :=
  decide (keyLe (key b) (key a))

/-- Python's stable descending sort by a `(grade, score)` key
(`sorted(..., key=..., reverse=True)`; `mergeSort` is stable, like
Timsort, and `reverse=True` does not disturb the order of equal keys). -/
noncomputable def sortDescBy {α : Type} (key : α → ℝ × ℤ) (l : List α) : List α :=
  l.mergeSort (descBy key)

/-- `enumerate(lst, start=n)`. -/
def enumFrom {α : Type} : ℕ → List α → List (ℕ × α)
  | _, [] => []
  | n, a :: as => (n, a) :: enumFrom (n + 1) as

/-- `entry['rank'] = rank`. -/
def setRank (e : RatingEntry) (r : ℕ) : RatingEntry := { e with rank := r }

/-- The entry built for one student by `get_ratings_from_db` (only built
when `student.seminar_grade is not None`); there is no `cdf_value` key and
no `rank` key yet. -/
noncomputable def dbEntry (db : DB) (u : User) : RatingEntry :=
  { user_id := u.id, username := u.username, score := u.score, rank := 0,
    grade := round2 (u.seminar_grade.getD 0),
    excluded := decide (u.score ≤ -15),
    cdf_value := none, group_id := u.group_id,
    group_name := userGroupName db u }

/-- The unsorted rating list of `get_ratings_from_db`: one entry per
student of the scope that has a non-null grade, in database order. -/
noncomputable def dbRatingBase (db : DB) (scope : Option ℤ) : List RatingEntry :=
  (scopedStudents db scope).filterMap
    (fun u => if u.seminar_grade.isSome then some (dbEntry db u) else none)

/-- The sorted, rank-annotated rating list of `get_ratings_from_db`. -/
noncomputable def dbRanked (db : DB) (scope : Option ℤ) : List RatingEntry :=
  (enumFrom 1 (sortDescBy entryKey (dbRatingBase db scope))).map
    (fun p => setRank p.2 p.1)

/-- `DatabaseManager.get_ratings_from_db`: return `None` unless some
student in scope has a computed grade; otherwise build entries for the
graded students, sort by `(grade, score)` descending, and assign ranks
from 1 (`return rating if rating else None`). -/
noncomputable def get_ratings_from_db (db : DB) (scope : Option ℤ) :
    Option (List RatingEntry) :=
  if ((scopedStudents db scope).filter (fun u => u.seminar_grade.isSome)).isEmpty
  then none
  else if (scopedStudents db scope).isEmpty then none
  else if (dbRanked db scope).isEmpty then none
  else some (dbRanked db scope)

/-- `DatabaseManager.clear_ratings`: set `seminar_grade` to `None` for
every student in scope. -/
def clear_ratings (db : DB) (scope : Option ℤ) : DB :=
  { db with users := db.users.map (fun u =>
      if u.user_type = UserType.student ∧ inScope scope u then
        { u with seminar_grade := none }
      else u) }

/-- The `(student.id, student.score)` pairs handed to `calculate_grades`
by `calculate_all_ratings`: the **entire** student population. -/
def students_data (db : DB) : List (ℤ × ℚ) :=
  (studentsOf db).map (fun s => (s.id, (s.score : ℚ)))

/-- The persistence loop of `calculate_all_ratings`: each user found in
the grades dict gets its (unrounded) grade written to `seminar_grade`. -/
def applyGrades (db : DB) (grades : List (ℤ × GradeInfo)) : DB :=
  { db with users := db.users.map (fun u =>
      match dictGet u.id grades with
      | some info => { u with seminar_grade := some info.grade }
      | none => u) }

/-- `DatabaseManager.calculate_all_ratings`: compute grades for all
students in one pass (one global µ/σ) and persist them. -/
noncomputable def calculate_all_ratings (db : DB) : DB :=
  if (studentsOf db).isEmpty then db
  else applyGrades db (calculate_grades (students_data db))

/-- The entry built for a group student on the recompute path of
`get_group_rating` (grade rounded for display, `cdf_value` key present
with value `0.0`). -/
noncomputable def groupEntry (gid : ℤ) (gname : String) (r : ℕ) (s : User) :
    RatingEntry :=
  { user_id := s.id, username := s.username, score := s.score, rank := r,
    grade := round2 (s.seminar_grade.getD 0),
    excluded := decide (s.score ≤ -15),
    cdf_value := some 0, group_id := some gid, group_name := gname }

/-- The database state after `get_group_rating`'s cache-miss check: a
full recompute happens only when **no student anywhere** has a non-null
grade. -/
noncomputable def groupMissDb (db : DB) : DB :=
  if ((studentsOf db).filter (fun u => u.seminar_grade.isSome)).isEmpty
  then calculate_all_ratings db
  else db

/-- The rating list built by the non-cached path of `get_group_rating`:
the group's students sorted by `(seminar_grade or 0, score)` descending,
ranked from 1 within the group. -/
noncomputable def group_rating_fresh (db1 : DB) (gid : ℤ) : List RatingEntry :=
  match findGroup db1 gid with
  | none => []
  | some gr =>
    if (group_students db1 gid).isEmpty then []
    else (enumFrom 1 (sortDescBy userKey (group_students db1 gid))).map
      (fun p => groupEntry gid gr.name p.1 p.2)

/-- `DatabaseManager.get_group_rating`: return the cached rating of the
group if present; otherwise recompute all grades if **no** student has a
grade, then build the group's ranked slice.  (`get_ratings_from_db` never
returns an empty list, so matching on `some` is the `if cached_rating:`
truthiness test.) -/
noncomputable def get_group_rating (db : DB) (gid : ℤ) :
    List RatingEntry × DB :=
  match get_ratings_from_db db (some gid) with
  | some cached => (cached, db)
  | none => (group_rating_fresh (groupMissDb db) gid, groupMissDb db)

/-- The entry built for a student on the recompute path of
`get_overall_rating`. -/
noncomputable def overallEntry (db1 : DB) (r : ℕ) (s : User) : RatingEntry :=
  { user_id := s.id, username := s.username, score := s.score, rank := r,
    grade := round2 (s.seminar_grade.getD 0),
    excluded := decide (s.score ≤ -15),
    cdf_value := some 0, group_id := s.group_id,
    group_name := userGroupName db1 s }

/-- The rating list built by the non-cached path of
`get_overall_rating`. -/
noncomputable def overall_rating_fresh (db1 : DB) : List RatingEntry :=
  if (studentsOf db1).isEmpty then []
  else (enumFrom 1 (sortDescBy userKey (studentsOf db1))).map
    (fun p => overallEntry db1 p.1 p.2)

/-- `DatabaseManager.get_overall_rating`: return the cached overall
rating if present; otherwise recompute all grades unconditionally and
build the full ranked list. -/
noncomputable def get_overall_rating (db : DB) : List RatingEntry × DB :=
  match get_ratings_from_db db none with
  | some cached => (cached, db)
  | none =>
    (overall_rating_fresh (calculate_all_ratings db), calculate_all_ratings db)

/-- `DatabaseManager.recalculate_all_ratings`: clear every grade, then
recompute everything in one pass. -/
noncomputable def recalculate_all_ratings (db : DB) : DB :=
  calculate_all_ratings (clear_ratings db none)

/-! #### RatingStatistics: `DatabaseManager.get_rating_statistics` -/

/-- `np.mean` over a list of floats. -/
noncomputable def npMean (l : List ℝ) : ℝ := l.sum / l.length

/-- `np.median`: middle element of the sorted list, or the average of the
two middle elements. -/
noncomputable def npMedian (l : List ℝ) : ℝ :=
  let s := l.mergeSort (fun a b => decide (a ≤ b))
  if l.length % 2 = 1 then s.getD (l.length / 2) 0
  else (s.getD (l.length / 2 - 1) 0 + s.getD (l.length / 2) 0) / 2

/-- `np.std` (population standard deviation, `ddof=0`). -/
noncomputable def npStd (l : List ℝ) : ℝ :=
  Real.sqrt (npMean (l.map (fun x => (x - npMean l) ^ 2)))

/-- `min(scores)` / `max(scores)` on a non-empty list of ints. -/
def intListMin : List ℤ → ℤ
  | [] => 0
  | a :: t => t.foldl min a

def intListMax : List ℤ → ℤ
  | [] => 0
  | a :: t => t.foldl max a

/-- The statistics dict.  The keys `included_students`, `mu` and `sigma`
are present only in the non-empty branch of the Python code; their
absence is modelled by `none`. -/
structure RatingStatistics where
  group_id : Option ℤ
  group_name : Option String
  total_students : ℕ
  excluded_students : ℕ
  included_students : Option ℕ
  mean_score : ℝ
  median_score : ℝ
  std_score : ℝ
  min_score : ℤ
  max_score : ℤ
  mean_grade : ℝ
  median_grade : ℝ
  mu : Option ℝ
  sigma : Option ℝ

/-- The all-zero statistics record returned for an empty rating list
(`included_students`, `mu`, `sigma` keys are absent from the Python
dict in this branch). -/
def emptyStatistics (gid : Option ℤ) (gname : Option String) : RatingStatistics :=
  { group_id := gid, group_name := gname, total_students := 0,
    excluded_students := 0, included_students := none,
    mean_score := 0, median_score := 0, std_score := 0,
    min_score := 0, max_score := 0, mean_grade := 0, median_grade := 0,
    mu := none, sigma := none }

/-- The statistics record for a non-empty rating list. -/
noncomputable def fullStatistics (gid : Option ℤ) (gname : Option String)
    (rating : List RatingEntry) : RatingStatistics :=
  let scores : List ℝ := rating.map (fun e => (e.score : ℝ))
  let grades : List ℝ := rating.map (fun e => e.grade)
  let excluded_count := (rating.filter (fun e => e.excluded)).length
  let included_scores : List ℝ :=
    (rating.filter (fun e => !e.excluded)).map (fun e => (e.score : ℝ))
  { group_id := gid, group_name := gname,
    total_students := rating.length,
    excluded_students := excluded_count,
    included_students := some (rating.length - excluded_count),
    mean_score := npMean scores,
    median_score := npMedian scores,
    std_score := if 1 < scores.length then npStd scores else 0,
    min_score := intListMin (rating.map (fun e => e.score)),
    max_score := intListMax (rating.map (fun e => e.score)),
    mean_grade := npMean grades,
    median_grade := npMedian grades,
    mu := some (if included_scores.isEmpty then 0 else npMean included_scores),
    sigma := some (if 1 < included_scores.length then npStd included_scores else 0) }

/-- `DatabaseManager.get_rating_statistics`: descriptive statistics over
the (group or overall) rating list; an empty list yields the zeroed
record. -/
noncomputable def get_rating_statistics (db : DB) (gid : Option ℤ) :
    RatingStatistics × DB :=
  let rgd : List RatingEntry × DB × Option String :=
    match gid with
    | some g =>
      if g ≠ 0 then
        let p := get_group_rating db g
        (p.1, p.2, match p.1 with | [] => none | e :: _ => some e.group_name)
      else
        let p := get_overall_rating db
        (p.1, p.2, none)
    | none =>
      let p := get_overall_rating db
      (p.1, p.2, none)
  if rgd.1.isEmpty then (emptyStatistics gid rgd.2.2, rgd.2.1)
  else (fullStatistics gid rgd.2.2 rgd.1, rgd.2.1)

/-! #### Sorting and ranking lemmas -/

theorem keyLe_refl (p : ℝ × ℤ) : keyLe p p := Or.inr ⟨rfl, le_refl _⟩

theorem keyLe_trans {p q r : ℝ × ℤ} (h1 : keyLe p q) (h2 : keyLe q r) :
    keyLe p r := by
  rcases h1 with h1 | ⟨h1, h1'⟩ <;> rcases h2 with h2 | ⟨h2, h2'⟩
  · exact Or.inl (h1.trans h2)
  · exact Or.inl (h2 ▸ h1)
  · exact Or.inl (h1 ▸ h2)
  · exact Or.inr ⟨h1.trans h2, h1'.trans h2'⟩

theorem keyLe_total (p q : ℝ × ℤ) : keyLe p q ∨ keyLe q p := by
  rcases lt_trichotomy p.1 q.1 with h | h | h
  · exact Or.inl (Or.inl h)
  · rcases le_total p.2 q.2 with h' | h'
    · exact Or.inl (Or.inr ⟨h, h'⟩)
    · exact Or.inr (Or.inr ⟨h.symm, h'⟩)
  · exact Or.inr (Or.inl h)

theorem descBy_trans {α : Type} (key : α → ℝ × ℤ) (a b c : α)
    (h1 : descBy key a b = true) (h2 : descBy key b c = true) :
    descBy key a c = true := by
  simp only [descBy, decide_eq_true_eq] at h1 h2 ⊢
  exact keyLe_trans h2 h1

theorem descBy_total {α : Type} (key : α → ℝ × ℤ) (a b : α) :
    (descBy key a b || descBy key b a) = true := by
  simp only [descBy, Bool.or_eq_true, decide_eq_true_eq]
  exact (keyLe_total (key b) (key a)).imp id id

theorem sortDescBy_pairwise {α : Type} (key : α → ℝ × ℤ) (l : List α) :
    (sortDescBy key l).Pairwise (fun a b => keyLe (key b) (key a)) := by
  have h := List.sorted_mergeSort (descBy_trans key) (descBy_total key) l
  refine h.imp ?_
  intro a b hab
  simpa only [descBy, decide_eq_true_eq] using hab

theorem sortDescBy_perm {α : Type} (key : α → ℝ × ℤ) (l : List α) :
    (sortDescBy key l).Perm l :=
  List.mergeSort_perm l (descBy key)

open Classical in
/-- Stability of the descending sort: the subsequence of elements with any
fixed `(grade, score)` key is exactly their subsequence in the input, i.e.
ties are left in input-encounter order. -/
theorem sortDescBy_filter_key {α : Type} (key : α → ℝ × ℤ) (l : List α)
    (k : ℝ × ℤ) :
    (sortDescBy key l).filter (fun x => decide (key x = k)) =
      l.filter (fun x => decide (key x = k)) := by
  have hperm : ((sortDescBy key l).filter (fun x => decide (key x = k))).Perm
      (l.filter (fun x => decide (key x = k))) :=
    (sortDescBy_perm key l).filter _
  have hpw : (l.filter (fun x => decide (key x = k))).Pairwise
      (fun a b => descBy key a b = true) := by
    apply List.pairwise_of_forall_mem_list
    intro a ha b hb
    have ha' := (List.mem_filter.mp ha).2
    have hb' := (List.mem_filter.mp hb).2
    simp only [decide_eq_true_eq] at ha' hb'
    simp only [descBy, decide_eq_true_eq, ha', hb']
    exact keyLe_refl k
  have hsub : (l.filter (fun x => decide (key x = k))).Sublist (sortDescBy key l) :=
    List.sublist_mergeSort (descBy_trans key) (descBy_total key) hpw
      (List.filter_sublist l)
  have hsub2 : (l.filter (fun x => decide (key x = k))).Sublist
      ((sortDescBy key l).filter (fun x => decide (key x = k))) := by
    have := hsub.filter (fun x => decide (key x = k))
    rwa [List.filter_filter, (by
      funext x
      simp only [Bool.and_self] : (fun x => decide (key x = k) && decide (key x = k)) =
        (fun x => decide (key x = k)))] at this
  exact (hsub2.eq_of_length hperm.length_eq.symm).symm

theorem enumFrom_map_fst {α : Type} (n : ℕ) (l : List α) :
    (enumFrom n l).map Prod.fst = List.range' n l.length := by
  induction l generalizing n with
  | nil => rfl
  | cons a l ih => simp [enumFrom, List.range'_succ, ih]

theorem enumFrom_map_snd {α : Type} (n : ℕ) (l : List α) :
    (enumFrom n l).map Prod.snd = l := by
  induction l generalizing n with
  | nil => rfl
  | cons a l ih => simp [enumFrom, ih]

theorem enumFrom_length {α : Type} (n : ℕ) (l : List α) :
    (enumFrom n l).length = l.length := by
  induction l generalizing n with
  | nil => rfl
  | cons a l ih => simp [enumFrom, ih]

theorem enumFrom_snd_mem {α : Type} {n : ℕ} {l : List α} {p : ℕ × α}
    (h : p ∈ enumFrom n l) : p.2 ∈ l := by
  have : p.2 ∈ (enumFrom n l).map Prod.snd := List.mem_map.mpr ⟨p, h, rfl⟩
  rwa [enumFrom_map_snd] at this

/-- The ranks produced by an `enumerate(..., start=n)` loop whose entry
builder stores the enumeration index as the rank. -/
theorem ranked_map_rank {α : Type} (build : ℕ → α → RatingEntry)
    (hb : ∀ m a, (build m a).rank = m) (n : ℕ) (l : List α) :
    ((enumFrom n l).map (fun p => build p.1 p.2)).map (fun e => e.rank) =
      List.range' n l.length := by
  rw [List.map_map]
  have : ((fun e : RatingEntry => e.rank) ∘ fun p : ℕ × α => build p.1 p.2) =
      Prod.fst := funext fun p => hb p.1 p.2
  rw [this, enumFrom_map_fst]

/-- Ranks form the dense sequence `1..N` over the returned list. -/
def denseRanks (r : List RatingEntry) : Prop :=
  r.map (fun e => e.rank) = List.range' 1 r.length

theorem enumFrom_pairwise {α : Type} {S : α → α → Prop} {l : List α}
    (h : l.Pairwise S) (n : ℕ) :
    (enumFrom n l).Pairwise (fun p q => S p.2 q.2) := by
  induction l generalizing n with
  | nil => exact List.Pairwise.nil
  | cons a l ih =>
    rcases List.pairwise_cons.mp h with ⟨ha, hl⟩
    exact List.Pairwise.cons (fun q hq => ha q.2 (enumFrom_snd_mem hq)) (ih hl (n + 1))

theorem filterMap_if_eq {α β : Type} (p : α → Bool) (f : α → β) (l : List α) :
    l.filterMap (fun a => if p a then some (f a) else none) = (l.filter p).map f := by
  induction l with
  | nil => rfl
  | cons a l ih =>
    by_cases h : p a <;> simp [List.filterMap_cons, List.filter_cons, h, ih]

theorem dbRatingBase_eq_map (db : DB) (scope : Option ℤ) :
    dbRatingBase db scope =
      ((scopedStudents db scope).filter (fun u => u.seminar_grade.isSome)).map
        (dbEntry db) :=
  filterMap_if_eq _ _ _

theorem dbRatingBase_rank_zero {db : DB} {scope : Option ℤ} {e : RatingEntry}
    (h : e ∈ dbRatingBase db scope) : e.rank = 0 := by
  rw [dbRatingBase_eq_map] at h
  obtain ⟨u, _, rfl⟩ := List.mem_map.mp h
  rfl

theorem setRank_eq_self {e : RatingEntry} (h : e.rank = 0) : setRank e 0 = e := by
  cases e
  simp only [setRank]
  simp_all

/-! #### `get_ratings_from_db` characterisation -/

theorem get_ratings_from_db_none_iff (db : DB) (scope : Option ℤ) :
    get_ratings_from_db db scope = none ↔
      (scopedStudents db scope).filter (fun u => u.seminar_grade.isSome) = [] := by
  rw [get_ratings_from_db]
  by_cases h1 : ((scopedStudents db scope).filter
      (fun u => u.seminar_grade.isSome)).isEmpty
  · rw [if_pos h1]
    simpa [List.isEmpty_iff] using h1
  · have h1' : (scopedStudents db scope).filter (fun u => u.seminar_grade.isSome) ≠ [] := by
      simpa [List.isEmpty_iff] using h1
    obtain ⟨u, hu⟩ := List.exists_mem_of_ne_nil _ h1'
    have hscope : ¬(scopedStudents db scope).isEmpty := by
      simp only [List.isEmpty_iff]
      exact List.ne_nil_of_mem (List.mem_of_mem_filter hu)
    have hbase : dbRatingBase db scope ≠ [] := by
      rw [dbRatingBase_eq_map]
      simp only [ne_eq, List.map_eq_nil_iff]
      exact h1'
    have hrank : ¬(dbRanked db scope).isEmpty := by
      simp only [List.isEmpty_iff, dbRanked, ne_eq, List.map_eq_nil_iff]
      intro hh
      have := enumFrom_length 1 (sortDescBy entryKey (dbRatingBase db scope))
      rw [hh] at this
      have hlen := (sortDescBy_perm entryKey (dbRatingBase db scope)).length_eq
      rw [← this] at hlen
      exact hbase (List.eq_nil_of_length_eq_zero hlen.symm)
    rw [if_neg h1, if_neg hscope, if_neg hrank]
    simp [h1']

theorem get_ratings_from_db_some_val {db : DB} {scope : Option ℤ}
    {r : List RatingEntry} (h : get_ratings_from_db db scope = some r) :
    r = dbRanked db scope := by
  rw [get_ratings_from_db] at h
  by_cases h1 : ((scopedStudents db scope).filter
      (fun u => u.seminar_grade.isSome)).isEmpty
  · rw [if_pos h1] at h; cases h
  · rw [if_neg h1] at h
    by_cases h2 : (scopedStudents db scope).isEmpty
    · rw [if_pos h2] at h; cases h
    · rw [if_neg h2] at h
      by_cases h3 : (dbRanked db scope).isEmpty
      · rw [if_pos h3] at h; cases h
      · rw [if_neg h3] at h
        exact (Option.some.injEq _ _ ▸ h).symm

theorem denseRanks_nil : denseRanks [] := rfl

theorem denseRanks_enum_map {α : Type} (build : ℕ → α → RatingEntry)
    (hb : ∀ m a, (build m a).rank = m) (l : List α) :
    denseRanks ((enumFrom 1 l).map (fun p => build p.1 p.2)) := by
  unfold denseRanks
  rw [ranked_map_rank build hb 1 l, List.length_map, enumFrom_length]

/-- The three semantic properties of a list returned by
`get_ratings_from_db`: dense ranks, descending `(grade, score)` order,
and being the rank-annotation of the sorted base list. -/
theorem get_ratings_some_props {db : DB} {scope : Option ℤ}
    {r : List RatingEntry} (h : get_ratings_from_db db scope = some r) :
    denseRanks r ∧
    r.Pairwise (fun a b => keyLe (entryKey b) (entryKey a)) ∧
    r.map (fun e => setRank e 0) = sortDescBy entryKey (dbRatingBase db scope) := by
  rw [get_ratings_from_db_some_val h]
  refine ⟨denseRanks_enum_map (fun m a => setRank a m) (fun _ _ => rfl) _, ?_, ?_⟩
  · rw [dbRanked, List.pairwise_map]
    exact enumFrom_pairwise (sortDescBy_pairwise entryKey _) 1
  · rw [dbRanked, List.map_map]
    have h1 : ((fun e : RatingEntry => setRank e 0) ∘ fun p : ℕ × RatingEntry =>
        setRank p.2 p.1) = (fun e => setRank e 0) ∘ Prod.snd := rfl
    rw [h1, ← List.map_map, enumFrom_map_snd]
    have h2 : ∀ e ∈ sortDescBy entryKey (dbRatingBase db scope),
        setRank e 0 = e := by
      intro e he
      exact setRank_eq_self
        (dbRatingBase_rank_zero ((sortDescBy_perm entryKey _).subset he))
    rw [List.map_congr_left h2]
    simp

theorem overall_fresh_dense (db1 : DB) :
    denseRanks (overall_rating_fresh db1) := by
  rw [overall_rating_fresh]
  by_cases h : (studentsOf db1).isEmpty
  · rw [if_pos h]; exact denseRanks_nil
  · rw [if_neg h]
    exact denseRanks_enum_map (overallEntry db1) (fun _ _ => rfl) _

theorem group_fresh_dense (db1 : DB) (gid : ℤ) :
    denseRanks (group_rating_fresh db1 gid) := by
  rw [group_rating_fresh]
  cases hf : findGroup db1 gid with
  | none => exact denseRanks_nil
  | some gr =>
    dsimp only
    by_cases h : (group_students db1 gid).isEmpty
    · rw [if_pos h]; exact denseRanks_nil
    · rw [if_neg h]
      exact denseRanks_enum_map (groupEntry gid gr.name) (fun _ _ => rfl) _

open Classical in
/-- C5: every rating list returned by the aggregation operations carries
ranks forming the dense sequence `1..N`, assigned by enumeration after the
stable descending sort by `(grade, score)` — for the cached read the
entries' own `(grade, score)` keys are in weakly descending lexicographic
order, for the recompute paths the list is built in the order of the
students sorted by `(seminar_grade or 0, score)` descending — and ties on
the sort key are left in input-encounter order (the filtered subsequence
at any fixed key equals its subsequence in the unsorted input). -/
theorem rating_lists_ranked_sorted_stable (db : DB) (scope : Option ℤ) (gid : ℤ) :
    (∀ r, get_ratings_from_db db scope = some r →
      denseRanks r ∧
      r.Pairwise (fun a b => keyLe (entryKey b) (entryKey a)) ∧
      r.map (fun e => setRank e 0) = sortDescBy entryKey (dbRatingBase db scope) ∧
      (∀ k, (sortDescBy entryKey (dbRatingBase db scope)).filter
          (fun x => decide (entryKey x = k)) =
        (dbRatingBase db scope).filter (fun x => decide (entryKey x = k)))) ∧
    (denseRanks (get_overall_rating db).1 ∧
      (get_ratings_from_db db none = none →
        (get_overall_rating db).1 = overall_rating_fresh (calculate_all_ratings db) ∧
        (sortDescBy userKey (studentsOf (calculate_all_ratings db))).Pairwise
          (fun a b => keyLe (userKey b) (userKey a)) ∧
        (∀ k, (sortDescBy userKey (studentsOf (calculate_all_ratings db))).filter
            (fun x => decide (userKey x = k)) =
          (studentsOf (calculate_all_ratings db)).filter
            (fun x => decide (userKey x = k))))) ∧
    (denseRanks (get_group_rating db gid).1 ∧
      (get_ratings_from_db db (some gid) = none →
        (get_group_rating db gid).1 = group_rating_fresh (groupMissDb db) gid ∧
        (sortDescBy userKey (group_students (groupMissDb db) gid)).Pairwise
          (fun a b => keyLe (userKey b) (userKey a)) ∧
        (∀ k, (sortDescBy userKey (group_students (groupMissDb db) gid)).filter
            (fun x => decide (userKey x = k)) =
          (group_students (groupMissDb db) gid).filter
            (fun x => decide (userKey x = k))))) := by
  refine ⟨?_, ⟨?_, ?_⟩, ⟨?_, ?_⟩⟩
  · intro r h
    obtain ⟨h1, h2, h3⟩ := get_ratings_some_props h
    exact ⟨h1, h2, h3, fun k => sortDescBy_filter_key entryKey _ k⟩
  · cases hm : get_ratings_from_db db none with
    | some c =>
      have : (get_overall_rating db).1 = c := by
        rw [get_overall_rating, hm]
      rw [this]
      exact (get_ratings_some_props hm).1
    | none =>
      have : (get_overall_rating db).1 =
          overall_rating_fresh (calculate_all_ratings db) := by
        rw [get_overall_rating, hm]
      rw [this]
      exact overall_fresh_dense _
  · intro h
    refine ⟨by rw [get_overall_rating, h], sortDescBy_pairwise userKey _,
      fun k => sortDescBy_filter_key userKey _ k⟩
  · cases hm : get_ratings_from_db db (some gid) with
    | some c =>
      have : (get_group_rating db gid).1 = c := by
        rw [get_group_rating, hm]
      rw [this]
      exact (get_ratings_some_props hm).1
    | none =>
      have : (get_group_rating db gid).1 =
          group_rating_fresh (groupMissDb db) gid := by
        rw [get_group_rating, hm]
      rw [this]
      exact group_fresh_dense _ gid
  · intro h
    refine ⟨by rw [get_group_rating, h], sortDescBy_pairwise userKey _,
      fun k => sortDescBy_filter_key userKey _ k⟩

/-- Witness environment for C5: a single graded student. -/
noncomputable def db5 : DB :=
  ⟨[⟨1, "S", 10, some 7, UserType.student, none⟩], []⟩

/-- The rating list `get_ratings_from_db` returns on `db5`. -/
noncomputable def r5 : List RatingEntry :=
  [⟨1, "S", 10, 1, round2 7, false, none, none, "Без группы"⟩]

theorem db5_read_eq : get_ratings_from_db db5 none = some r5 := by
  simp [get_ratings_from_db, dbRanked, dbRatingBase, scopedStudents, studentsOf,
        inScope, gidTruthy, db5, r5, dbEntry, userGroupName, sortDescBy,
        List.mergeSort_singleton, enumFrom, setRank]

/-- Witness for C5 at `db5`. -/
theorem rating_lists_ranked_sorted_stable_witness :
    denseRanks r5 ∧ r5.Pairwise (fun a b => keyLe (entryKey b) (entryKey a)) :=
  have h := (rating_lists_ranked_sorted_stable db5 none 1).1 r5 db5_read_eq
  ⟨h.1, h.2.1⟩

/-- Mapping an entry field over an `enumerate`-and-build loop recovers the
corresponding field of the underlying list. -/
theorem enum_map_field {α β : Type} (build : ℕ → α → RatingEntry)
    (f : RatingEntry → β) (g : α → β) (hb : ∀ m a, f (build m a) = g a)
    (n : ℕ) (l : List α) :
    ((enumFrom n l).map (fun p => build p.1 p.2)).map f = l.map g := by
  rw [List.map_map]
  have h : (f ∘ fun p : ℕ × α => build p.1 p.2) = g ∘ Prod.snd :=
    funext fun p => hb p.1 p.2
  rw [h, ← List.map_map, enumFrom_map_snd]

/-- C6 (amended): the store's read returns a cached list iff some student
in scope has a non-null grade, and the returned list covers exactly the
scope's students **that have a non-null grade** — which can be a proper
subset of the scope when grades were partially cleared. -/
theorem get_ratings_from_db_cache_contract (db : DB) (scope : Option ℤ) :
    ((get_ratings_from_db db scope).isSome ↔
      ∃ u ∈ scopedStudents db scope, u.seminar_grade.isSome) ∧
    ∀ r, get_ratings_from_db db scope = some r →
      (r.map (fun e => e.user_id)).Perm
        (((scopedStudents db scope).filter
          (fun u => u.seminar_grade.isSome)).map (fun u => u.id)) := by
  constructor
  · constructor
    · intro hs
      have hne : get_ratings_from_db db scope ≠ none := by
        intro hn; rw [hn] at hs; cases hs
      have hf : (scopedStudents db scope).filter
          (fun u => u.seminar_grade.isSome) ≠ [] := by
        intro h0; exact hne ((get_ratings_from_db_none_iff db scope).mpr h0)
      obtain ⟨u, hu⟩ := List.exists_mem_of_ne_nil _ hf
      exact ⟨u, List.mem_of_mem_filter hu, (List.mem_filter.mp hu).2⟩
    · rintro ⟨u, hu, hg⟩
      have hf : (scopedStudents db scope).filter
          (fun u => u.seminar_grade.isSome) ≠ [] :=
        List.ne_nil_of_mem (List.mem_filter.mpr ⟨hu, hg⟩)
      have hne : get_ratings_from_db db scope ≠ none := by
        intro hn; exact hf ((get_ratings_from_db_none_iff db scope).mp hn)
      exact Option.ne_none_iff_isSome.mp hne
  · intro r h
    rw [get_ratings_from_db_some_val h, dbRanked]
    have h1 : ((enumFrom 1 (sortDescBy entryKey (dbRatingBase db scope))).map
        (fun p => setRank p.2 p.1)).map (fun e => e.user_id) =
        (sortDescBy entryKey (dbRatingBase db scope)).map (fun e => e.user_id) :=
      enum_map_field (fun m a => setRank a m) (fun e => e.user_id)
        (fun e => e.user_id) (fun _ _ => rfl) 1
        (sortDescBy entryKey (dbRatingBase db scope))
    rw [h1]
    have h2 : (dbRatingBase db scope).map (fun e => e.user_id) =
        ((scopedStudents db scope).filter
          (fun u => u.seminar_grade.isSome)).map (fun u => u.id) := by
      rw [dbRatingBase_eq_map, List.map_map]
      rfl
    rw [← h2]
    exact (sortDescBy_perm entryKey _).map _

/-- C6 counterexample environment: two students in scope, only one of whom
has a grade. -/
noncomputable def dbC6 : DB :=
  ⟨[⟨1, "X", 5, none, UserType.student, none⟩,
    ⟨2, "Y", 3, some 4, UserType.student, none⟩], []⟩

/-- The single entry `get_ratings_from_db` returns on `dbC6`. -/
noncomputable def entryC6 : RatingEntry :=
  ⟨2, "Y", 3, 1, round2 4, false, none, none, "Без группы"⟩

theorem dbC6_read_eq : get_ratings_from_db dbC6 none = some [entryC6] := by
  simp [get_ratings_from_db, dbRanked, dbRatingBase, scopedStudents, studentsOf,
        inScope, gidTruthy, dbC6, entryC6, dbEntry, userGroupName, sortDescBy,
        List.mergeSort_singleton, enumFrom, setRank]

/-- C6 counterexample: on `dbC6` the read returns a one-entry list while
the scope holds two students, so the returned list does **not** cover the
scope's participants — it silently omits the ungraded one. -/
theorem read_returns_partial_list_counterexample :
    get_ratings_from_db dbC6 none = some [entryC6] ∧
    (scopedStudents dbC6 none).length = 2 ∧
    ([entryC6].length ≠ (scopedStudents dbC6 none).length) :=
  ⟨dbC6_read_eq,
   by simp [scopedStudents, studentsOf, inScope, gidTruthy, dbC6],
   by simp [scopedStudents, studentsOf, inScope, gidTruthy, dbC6]⟩

/-- Witness for the amended C6 at `dbC6`. -/
theorem get_ratings_from_db_cache_contract_witness :
    (([entryC6] : List RatingEntry).map (fun e => e.user_id)).Perm
      (((scopedStudents dbC6 none).filter
        (fun u => u.seminar_grade.isSome)).map (fun u => u.id)) :=
  (get_ratings_from_db_cache_contract dbC6 none).2 [entryC6] dbC6_read_eq

theorem roundHalfEven_intCast (n : ℤ) : roundHalfEven (n : ℝ) = n := by
  rw [roundHalfEven, if_neg, round_intCast]
  rw [Int.fract_intCast]
  norm_num

theorem round2_intCast (n : ℤ) : round2 ((n : ℤ) : ℝ) = (n : ℝ) := by
  rw [round2]
  have h : (100 : ℝ) * (n : ℝ) = ((100 * n : ℤ) : ℝ) := by push_cast; ring
  rw [h, roundHalfEven_intCast]
  push_cast
  field_simp

theorem round2_zero : round2 0 = 0 := by
  have h := round2_intCast 0
  simpa using h

theorem get_ratings_from_db_none_of_ungraded {db : DB} {scope : Option ℤ}
    (h : ∀ u ∈ studentsOf db, u.seminar_grade = none) :
    get_ratings_from_db db scope = none := by
  rw [get_ratings_from_db_none_iff, List.filter_eq_nil_iff]
  intro u hu
  rw [h u (List.mem_of_mem_filter hu)]
  simp

/-- C1 (amended): when no student in the **entire population** has a
cached grade, `get_group_rating` triggers the recomputation pass over the
entire student population (one global µ/σ), persists it (the resulting
state is `calculate_all_ratings db`), and returns only the cohort's
entries, re-ranked starting at 1 within the cohort. -/
theorem get_group_rating_global_miss (db : DB) (gid : ℤ)
    (h : ∀ u ∈ studentsOf db, u.seminar_grade = none) :
    (get_group_rating db gid).2 = calculate_all_ratings db ∧
    denseRanks (get_group_rating db gid).1 ∧
    (∀ gr, findGroup (calculate_all_ratings db) gid = some gr →
      ((get_group_rating db gid).1.map (fun e => e.user_id)).Perm
        ((group_students (calculate_all_ratings db) gid).map (fun u => u.id))) := by
  have hmiss : get_ratings_from_db db (some gid) = none :=
    get_ratings_from_db_none_of_ungraded h
  have hfilter : (studentsOf db).filter (fun u => u.seminar_grade.isSome) = [] := by
    rw [List.filter_eq_nil_iff]
    intro u hu
    rw [h u hu]
    simp
  have hmdb : groupMissDb db = calculate_all_ratings db := by
    rw [groupMissDb, if_pos (by simp [List.isEmpty_iff, hfilter])]
  have hg : get_group_rating db gid =
      (group_rating_fresh (calculate_all_ratings db) gid,
       calculate_all_ratings db) := by
    rw [get_group_rating, hmiss, hmdb]
  refine ⟨by rw [hg], by rw [hg]; exact group_fresh_dense _ gid, ?_⟩
  intro gr hgr
  rw [hg]
  dsimp only
  rw [group_rating_fresh, hgr]
  dsimp only
  by_cases hemp : (group_students (calculate_all_ratings db) gid).isEmpty
  · rw [if_pos hemp]
    rw [List.isEmpty_iff] at hemp
    rw [hemp]
    rfl
  · rw [if_neg hemp]
    have h1 : ((enumFrom 1 (sortDescBy userKey
        (group_students (calculate_all_ratings db) gid))).map
          (fun p => groupEntry gid gr.name p.1 p.2)).map (fun e => e.user_id) =
        (sortDescBy userKey (group_students (calculate_all_ratings db) gid)).map
          (fun u => u.id) :=
      enum_map_field (groupEntry gid gr.name) (fun e => e.user_id)
        (fun u => u.id) (fun _ _ => rfl) 1 _
    rw [h1]
    exact (sortDescBy_perm userKey _).map _

/-- Witness environment for the amended C1: one ungraded student in a
group. -/
noncomputable def dbC1w : DB :=
  ⟨[⟨1, "A", 20, none, UserType.student, some 1⟩], [⟨1, "G1"⟩]⟩

/-- Witness for the amended C1 at `dbC1w`. -/
theorem get_group_rating_global_miss_witness :
    (get_group_rating dbC1w 1).2 = calculate_all_ratings dbC1w ∧
    denseRanks (get_group_rating dbC1w 1).1 :=
  have h := get_group_rating_global_miss dbC1w 1 (by
    intro u hu
    simp only [studentsOf, dbC1w] at hu
    simp at hu
    rw [hu])
  ⟨h.1, h.2.1⟩

/-- C1 counterexample environment: cohort 1's rating is not cached
(student A has no grade) but student B outside the cohort still has one. -/
noncomputable def dbC1 : DB :=
  ⟨[⟨1, "A", 0, none, UserType.student, some 1⟩,
    ⟨2, "B", 10, some 7, UserType.student, some 2⟩],
   [⟨1, "G1"⟩, ⟨2, "G2"⟩]⟩

theorem students_data_dbC1 : students_data dbC1 = [(1, 0), (2, 10)] := by
  simp [students_data, studentsOf, dbC1]

theorem calculate_all_ratings_dbC1_ne : calculate_all_ratings dbC1 ≠ dbC1 := by
  intro heq
  obtain ⟨info, hinfo, -⟩ :=
    @dictGet_calculate_grades_included (students_data dbC1) 1 0
      (by rw [students_data_dbC1]; decide)
      (by rw [students_data_dbC1]; decide)
      (by decide)
  have h2 : (calculate_all_ratings dbC1).users = dbC1.users :=
    congrArg DB.users heq
  rw [calculate_all_ratings,
      if_neg (by simp [studentsOf, dbC1, List.isEmpty_iff])] at h2
  rw [applyGrades] at h2
  dsimp only at h2
  have husers : dbC1.users =
      [⟨1, "A", 0, none, UserType.student, some 1⟩,
       ⟨2, "B", 10, some 7, UserType.student, some 2⟩] := rfl
  rw [husers, List.map_cons, List.map_cons, List.map_nil] at h2
  have hA := (List.cons_eq_cons.mp h2).1
  dsimp only at hA
  rw [hinfo] at hA
  exact Option.noConfusion (congrArg User.seminar_grade hA)

/-- C1 counterexample: on `dbC1`, cohort 1's rating is not cached, yet
`get_group_rating` performs no recomputation and persists nothing (the
state is returned unchanged), even though a recomputation pass would have
changed the state. -/
theorem get_group_rating_no_recompute_counterexample :
    get_ratings_from_db dbC1 (some 1) = none ∧
    (get_group_rating dbC1 1).2 = dbC1 ∧
    calculate_all_ratings dbC1 ≠ dbC1 := by
  refine ⟨?_, ?_, calculate_all_ratings_dbC1_ne⟩
  · rw [get_ratings_from_db_none_iff]
    simp [scopedStudents, studentsOf, inScope, gidTruthy, dbC1]
  · have hmiss : get_ratings_from_db dbC1 (some 1) = none := by
      rw [get_ratings_from_db_none_iff]
      simp [scopedStudents, studentsOf, inScope, gidTruthy, dbC1]
    have hmdb : groupMissDb dbC1 = dbC1 := by
      rw [groupMissDb, if_neg]
      simp [studentsOf, dbC1, List.isEmpty_iff]
    rw [get_group_rating, hmiss, hmdb]

/-- C7 environment before the clear: both students graded. -/
noncomputable def dbC7pre : DB :=
  ⟨[⟨1, "A", 0, some 2, UserType.student, some 1⟩,
    ⟨2, "B", 10, some 7, UserType.student, some 2⟩],
   [⟨1, "G1"⟩, ⟨2, "G2"⟩]⟩

/-- C7 environment after `clear_ratings(group_id=1)`: cohort 1's grade is
null, cohort 2's survives. -/
noncomputable def dbC7 : DB :=
  ⟨[⟨1, "A", 0, none, UserType.student, some 1⟩,
    ⟨2, "B", 10, some 7, UserType.student, some 2⟩],
   [⟨1, "G1"⟩, ⟨2, "G2"⟩]⟩

/-- C7: after clearing cohort 1's rating, the next `get_group_rating(1)`
does **not** trigger a recomputation (the state is returned unchanged,
because a student outside the cohort still holds a grade) and returns the
cohort entry with the grade silently defaulted to `0.0`. -/
theorem clear_then_group_read_skips_recompute :
    clear_ratings dbC7pre (some 1) = dbC7 ∧
    get_ratings_from_db dbC7 (some 1) = none ∧
    (get_group_rating dbC7 1).2 = dbC7 ∧
    ((get_group_rating dbC7 1).1).map (fun e => (e.user_id, e.grade)) =
      [((1 : ℤ), (0 : ℝ))] := by
  have hclear : clear_ratings dbC7pre (some 1) = dbC7 := by
    simp only [clear_ratings, dbC7pre, dbC7, inScope, gidTruthy]
    simp
  have hmiss : get_ratings_from_db dbC7 (some 1) = none := by
    rw [get_ratings_from_db_none_iff]
    simp [scopedStudents, studentsOf, inScope, gidTruthy, dbC7]
  have hmdb : groupMissDb dbC7 = dbC7 := by
    rw [groupMissDb, if_neg]
    simp [studentsOf, dbC7, List.isEmpty_iff]
  have hg : get_group_rating dbC7 1 = (group_rating_fresh dbC7 1, dbC7) := by
    rw [get_group_rating, hmiss, hmdb]
  refine ⟨hclear, hmiss, by rw [hg], ?_⟩
  rw [hg]
  dsimp only
  have hfind : findGroup dbC7 1 = some ⟨1, "G1"⟩ := by
    simp [findGroup, dbC7]
  rw [group_rating_fresh, hfind]
  dsimp only
  have hstud : group_students dbC7 1 =
      [⟨1, "A", 0, none, UserType.student, some 1⟩] := by
    simp [group_students, dbC7]
  rw [hstud]
  rw [if_neg (by simp)]
  rw [sortDescBy, List.mergeSort_singleton]
  simp only [enumFrom, List.map_cons, List.map_nil, groupEntry]
  simp [round2_zero]

/-- C8 (amended): for an empty student population `get_overall_rating`
returns the empty list (not an error) and `get_rating_statistics` returns
the zeroed statistics record — which carries `total_students = 0` and all
its numeric fields at `0`, but does **not** carry the `included_students`,
`mu` and `sigma` keys (they exist only in the non-empty branch). -/
theorem empty_population_defaults (db : DB) (h : studentsOf db = []) :
    get_overall_rating db = ([], db) ∧
    get_rating_statistics db none = (emptyStatistics none none, db) := by
  have hscope : ∀ scope, scopedStudents db scope = [] := by
    intro scope
    rw [scopedStudents, h, List.filter_nil]
  have hmiss : get_ratings_from_db db none = none := by
    rw [get_ratings_from_db_none_iff, hscope, List.filter_nil]
  have hcalc : calculate_all_ratings db = db := by
    rw [calculate_all_ratings, if_pos (by simp [List.isEmpty_iff, h])]
  have hfresh : overall_rating_fresh db = [] := by
    rw [overall_rating_fresh, if_pos (by simp [List.isEmpty_iff, h])]
  have hov : get_overall_rating db = ([], db) := by
    rw [get_overall_rating, hmiss, hcalc, hfresh]
  refine ⟨hov, ?_⟩
  rw [get_rating_statistics]
  dsimp only
  rw [hov]
  rfl

/-- The empty database. -/
def dbEmpty : DB := ⟨[], []⟩

/-- C8 counterexample: on the empty population the statistics record has
`total_students = 0`, but the `included_students`, `mu` and `sigma`
fields are absent (modelled as `none`), so the record does not contain
every field of the statistics contract. -/
theorem empty_statistics_missing_fields :
    (get_rating_statistics dbEmpty none).1.total_students = 0 ∧
    (get_rating_statistics dbEmpty none).1.included_students = none ∧
    (get_rating_statistics dbEmpty none).1.mu = none ∧
    (get_rating_statistics dbEmpty none).1.sigma = none ∧
    (get_overall_rating dbEmpty).1 = [] := by
  have h := empty_population_defaults dbEmpty rfl
  rw [h.1, h.2]
  exact ⟨rfl, rfl, rfl, rfl, rfl⟩

/-- Witness for the amended C8 at the empty database. -/
theorem empty_population_defaults_witness :
    get_overall_rating dbEmpty = ([], dbEmpty) ∧
    get_rating_statistics dbEmpty none = (emptyStatistics none none, dbEmpty) :=
  empty_population_defaults dbEmpty rfl

theorem mem_dbRanked {db : DB} {scope : Option ℤ} {e : RatingEntry}
    (he : e ∈ dbRanked db scope) :
    ∃ u, u ∈ scopedStudents db scope ∧ u.seminar_grade.isSome ∧
      ∃ n, e = setRank (dbEntry db u) n := by
  obtain ⟨p, hp, rfl⟩ := List.mem_map.mp he
  have hs : p.2 ∈ sortDescBy entryKey (dbRatingBase db scope) := enumFrom_snd_mem hp
  have hb : p.2 ∈ dbRatingBase db scope := (sortDescBy_perm entryKey _).subset hs
  rw [dbRatingBase_eq_map] at hb
  obtain ⟨u, hu, hpe⟩ := List.mem_map.mp hb
  obtain ⟨hu1, hu2⟩ := List.mem_filter.mp hu
  exact ⟨u, hu1, hu2, p.1, by rw [hpe]⟩

theorem mem_users_of_mem_students {db : DB} {u : User}
    (h : u ∈ studentsOf db) : u ∈ db.users :=
  List.mem_of_mem_filter h

theorem mem_users_of_mem_scoped {db : DB} {scope : Option ℤ} {u : User}
    (h : u ∈ scopedStudents db scope) : u ∈ db.users :=
  mem_users_of_mem_students (List.mem_of_mem_filter h)

theorem mem_users_of_mem_group {db : DB} {gid : ℤ} {u : User}
    (h : u ∈ group_students db gid) : u ∈ db.users :=
  List.mem_of_mem_filter h

/-- The C10 property for one entry coming from a cached read of `db`. -/
theorem db_entry_rounded {db : DB} {scope : Option ℤ} {r : List RatingEntry}
    (h : get_ratings_from_db db scope = some r) {e : RatingEntry} (he : e ∈ r) :
    ∃ u ∈ db.users, u.id = e.user_id ∧
      ∃ g : ℝ, u.seminar_grade = some g ∧ e.grade = round2 g := by
  rw [get_ratings_from_db_some_val h] at he
  obtain ⟨u, hu, hg, n, rfl⟩ := mem_dbRanked he
  obtain ⟨g, hG⟩ := Option.isSome_iff_exists.mp hg
  refine ⟨u, mem_users_of_mem_scoped hu, rfl, g, hG, ?_⟩
  show round2 (u.seminar_grade.getD 0) = round2 g
  rw [hG]
  rfl

/-- C10: every entry returned by `get_ratings_from_db`,
`get_overall_rating` and `get_group_rating` carries a grade rounded to
exactly two decimal places of the participant's stored grade (on both the
cached-read and recompute paths), while the grade persisted by
`calculate_all_ratings` is the unrounded grade produced by
`calculate_grades`. -/
theorem returned_grades_rounded (db : DB) (scope : Option ℤ) (gid : ℤ) :
    (∀ r, get_ratings_from_db db scope = some r → ∀ e ∈ r,
      ∃ u ∈ db.users, u.id = e.user_id ∧
        ∃ g : ℝ, u.seminar_grade = some g ∧ e.grade = round2 g) ∧
    (∀ e ∈ (get_overall_rating db).1,
      ∃ u ∈ (get_overall_rating db).2.users,
        u.id = e.user_id ∧ e.grade = round2 (u.seminar_grade.getD 0)) ∧
    (∀ e ∈ (get_group_rating db gid).1,
      ∃ u ∈ (get_group_rating db gid).2.users,
        u.id = e.user_id ∧ e.grade = round2 (u.seminar_grade.getD 0)) ∧
    (∀ u' ∈ (calculate_all_ratings db).users, ∀ info,
      dictGet u'.id (calculate_grades (students_data db)) = some info →
        u'.seminar_grade = some info.grade) := by
  refine ⟨fun r h e he => db_entry_rounded h he, ?_, ?_, ?_⟩
  · cases hm : get_ratings_from_db db none with
    | some c =>
      have hov : get_overall_rating db = (c, db) := by
        rw [get_overall_rating, hm]
      rw [hov]
      intro e he
      obtain ⟨u, hu, hid, g, hg, hr⟩ := db_entry_rounded hm he
      exact ⟨u, hu, hid, by rw [hr, hg]; rfl⟩
    | none =>
      have hov : get_overall_rating db =
          (overall_rating_fresh (calculate_all_ratings db),
           calculate_all_ratings db) := by
        rw [get_overall_rating, hm]
      rw [hov]
      intro e he
      dsimp only at he ⊢
      rw [overall_rating_fresh] at he
      by_cases hh : (studentsOf (calculate_all_ratings db)).isEmpty
      · rw [if_pos hh] at he; cases he
      · rw [if_neg hh] at he
        obtain ⟨p, hp, rfl⟩ := List.mem_map.mp he
        have hs : p.2 ∈ studentsOf (calculate_all_ratings db) :=
          (sortDescBy_perm userKey _).subset (enumFrom_snd_mem hp)
        exact ⟨p.2, mem_users_of_mem_students hs, rfl, rfl⟩
  · cases hm : get_ratings_from_db db (some gid) with
    | some c =>
      have hgr : get_group_rating db gid = (c, db) := by
        rw [get_group_rating, hm]
      rw [hgr]
      intro e he
      obtain ⟨u, hu, hid, g, hg, hr⟩ := db_entry_rounded hm he
      exact ⟨u, hu, hid, by rw [hr, hg]; rfl⟩
    | none =>
      have hgr : get_group_rating db gid =
          (group_rating_fresh (groupMissDb db) gid, groupMissDb db) := by
        rw [get_group_rating, hm]
      rw [hgr]
      intro e he
      dsimp only at he ⊢
      rw [group_rating_fresh] at he
      cases hf : findGroup (groupMissDb db) gid with
      | none => rw [hf] at he; cases he
      | some gr =>
        rw [hf] at he
        dsimp only at he
        by_cases hh : (group_students (groupMissDb db) gid).isEmpty
        · rw [if_pos hh] at he; cases he
        · rw [if_neg hh] at he
          obtain ⟨p, hp, rfl⟩ := List.mem_map.mp he
          have hs : p.2 ∈ group_students (groupMissDb db) gid :=
            (sortDescBy_perm userKey _).subset (enumFrom_snd_mem hp)
          exact ⟨p.2, mem_users_of_mem_group hs, rfl, rfl⟩
  · intro u' hu' info hinfo
    rw [calculate_all_ratings] at hu'
    by_cases hh : (studentsOf db).isEmpty
    · rw [if_pos hh] at hu'
      have hdata : students_data db = [] := by
        rw [students_data, List.isEmpty_iff.mp hh]
        rfl
      rw [hdata] at hinfo
      rw [calculate_grades] at hinfo
      simp [dictGet] at hinfo
    · rw [if_neg hh] at hu'
      rw [applyGrades] at hu'
      dsimp only at hu'
      obtain ⟨u, hu, hfu⟩ := List.mem_map.mp hu'
      cases hd : dictGet u.id (calculate_grades (students_data db)) with
      | some i =>
        rw [hd] at hfu
        have hid : u'.id = u.id := by rw [← hfu]
        rw [hid, hd] at hinfo
        have : i = info := Option.some.inj hinfo
        rw [← hfu, ← this]
      | none =>
        rw [hd] at hfu
        have hid : u'.id = u.id := by rw [← hfu]
        rw [hid, hd] at hinfo
        cases hinfo

/-- Witness environment for C10: a single graded student. -/
noncomputable def db10 : DB :=
  ⟨[⟨3, "T", 8, some 6, UserType.student, none⟩], []⟩

/-- The rating list `get_ratings_from_db` returns on `db10`. -/
noncomputable def r10 : List RatingEntry :=
  [⟨3, "T", 8, 1, round2 6, false, none, none, "Без группы"⟩]

theorem db10_read_eq : get_ratings_from_db db10 none = some r10 := by
  simp [get_ratings_from_db, dbRanked, dbRatingBase, scopedStudents, studentsOf,
        inScope, gidTruthy, db10, r10, dbEntry, userGroupName, sortDescBy,
        List.mergeSort_singleton, enumFrom, setRank]

/-- Witness for C10 at `db10`. -/
theorem returned_grades_rounded_witness :
    ∃ u ∈ db10.users,
      u.id = (⟨3, "T", 8, 1, round2 6, false, none, none,
        "Без группы"⟩ : RatingEntry).user_id ∧
      ∃ g : ℝ, u.seminar_grade = some g ∧
        (⟨3, "T", 8, 1, round2 6, false, none, none,
          "Без группы"⟩ : RatingEntry).grade = round2 g :=
  (returned_grades_rounded db10 none 1).1 r10 db10_read_eq _ (by simp [r10])

/-! ### Presentation helper: `format_rating_message` -/

/-- Medal glyph for ranks 1–3. -/
def medalFor (rank : ℕ) : String :=
  if rank = 1 then "🥇" else if rank = 2 then "🥈"
  else if rank = 3 then "🥉" else ""

/-- Python float formatting `'...:.2f'` on the grade: two decimal places,
half to even (the mathematical idealisation of formatting the double). -/
noncomputable def fmt2 (x : ℝ) : String :=
  (if roundHalfEven (100 * x) < 0 then "-" else "")
    ++ toString ((roundHalfEven (100 * x)).natAbs / 100) ++ "."
    ++ (if (roundHalfEven (100 * x)).natAbs % 100 < 10 then "0" else "")
    ++ toString ((roundHalfEven (100 * x)).natAbs % 100)

/-- One detail block of the rating message: medal, rank, name, cohort,
exclusion marker, score and grade. -/
noncomputable def renderEntry (e : RatingEntry) : String :=
  medalFor e.rank ++ " " ++ toString e.rank ++ ". " ++ e.username
    ++ (if e.group_name ≠ "" then " | " ++ e.group_name else "")
    ++ (if e.excluded then " ⚠️" else "")
    ++ "\n" ++ "   Баллы: " ++ toString e.score ++ " | Оценка: "
    ++ fmt2 e.grade ++ "\n\n"

/-- `format_rating_message` from `src/models/rating.py`: despite the
"limit to 20 entries" comment on its loop, the loop iterates over the
**whole** list, and the remainder count is appended when the list is
longer than 20. -/
noncomputable def format_rating_message (rating : List RatingEntry)
    (title : String) : String :=
  if rating.isEmpty then title ++ "\n\nРейтинг пуст."
  else
    (rating.foldl (fun m e => m ++ renderEntry e) ("📊 " ++ title ++ "\n\n"))
      ++ (if 20 < rating.length then
            "... и еще " ++ toString (rating.length - 20) ++ " студентов"
          else "")

/-- `RatingSystem.format_rating_message` from `src/rating.py`: identical
except that the loop iterates over `rating[:20]`, capping the detailed
listing at 20 entries. -/
noncomputable def RatingSystem.format_rating_message (rating : List RatingEntry)
    (title : String) : String :=
  if rating.isEmpty then title ++ "\n\nРейтинг пуст."
  else
    ((rating.take 20).foldl (fun m e => m ++ renderEntry e) ("📊 " ++ title ++ "\n\n"))
      ++ (if 20 < rating.length then
            "... и еще " ++ toString (rating.length - 20) ++ " студентов"
          else "")

theorem foldl_render_length (l : List RatingEntry) (s : String) :
    (l.foldl (fun m e => m ++ renderEntry e) s).length =
      s.length + (l.map (fun e => (renderEntry e).length)).sum := by
  induction l generalizing s with
  | nil => simp
  | cons a l ih =>
    rw [List.foldl_cons, ih, String.length_append, List.map_cons, List.sum_cons]
    omega

theorem renderEntry_length_pos (e : RatingEntry) : 0 < (renderEntry e).length := by
  rw [renderEntry, String.length_append]
  have h2 : ("\n\n" : String).length = 2 := rfl
  omega

/-- A synthetic rating entry for the C9 failing input. -/
noncomputable def plainEntry (i : ℕ) : RatingEntry :=
  ⟨(i : ℤ), "S", 0, i, 0, false, none, none, ""⟩

/-- The C9 failing input: a rating list of 21 entries. -/
noncomputable def rating21 : List RatingEntry := (List.range 21).map plainEntry

/-- C9: on a 21-entry rating list, the `format_rating_message` of
`src/models/rating.py` renders all 21 detail blocks — it does not cap the
detailed listing at 20 — so its output differs from the capped
`RatingSystem.format_rating_message` of `src/rating.py` exactly by the
21st detail block. -/
theorem format_rating_message_renders_all :
    rating21.length = 21 ∧
    format_rating_message rating21 "Рейтинг" ≠
      RatingSystem.format_rating_message rating21 "Рейтинг" := by
  have hlen : rating21.length = 21 := by simp [rating21]
  have hne : ¬rating21.isEmpty = true := by simp [rating21]
  have h20 : 20 < rating21.length := by rw [hlen]; norm_num
  have hsplit : rating21 = (List.range 20).map plainEntry ++ [plainEntry 20] := by
    rw [rating21, List.range_succ, List.map_append, List.map_singleton]
  have hlen20 : ((List.range 20).map plainEntry).length = 20 := by simp
  have htake : rating21.take 20 = (List.range 20).map plainEntry := by
    rw [hsplit]
    exact List.take_left' hlen20
  refine ⟨hlen, ?_⟩
  intro heq
  have h := congrArg String.length heq
  rw [format_rating_message, RatingSystem.format_rating_message,
      if_neg hne, if_neg hne, if_pos h20] at h
  simp only [String.length_append] at h
  rw [foldl_render_length, foldl_render_length, htake] at h
  rw [show (rating21.map (fun e => (renderEntry e).length)) =
      ((List.range 20).map plainEntry).map (fun e => (renderEntry e).length)
        ++ [(renderEntry (plainEntry 20)).length] by
    rw [hsplit, List.map_append, List.map_singleton]] at h
  rw [List.sum_append, List.sum_cons, List.sum_nil] at h
  have hpos := renderEntry_length_pos (plainEntry 20)
  omega

end FinMarkets
